import Mathlib

/-!
Verification of the CineMatch AI SSE streaming client
(src/frontend/src/lib/api.ts) against its specification.

The embedding models text as `List Char`.  The frame decoder
(class SSEParser, method feed, lines 94-130 of api.ts) buffers raw
chunks, normalizes line endings by the two regex replacements
r-n to n and then r to n, splits on the newline character, keeps the
final segment as the new buffer, and iterates over the completed lines.
-/

set_option maxRecDepth 4000

namespace CineMatch

/-- The first regex replacement of api.ts line 97: every occurrence of
the two-character sequence CR LF is replaced by LF, scanning left to
right without rescanning the replacement (JS String.replace with a
global regex). -/
def replaceCRLF : List Char → List Char
  | [] => []
  | [c] => [c]
  | c :: d :: rest =>
    if c = '\r' && d = '\n' then '\n' :: replaceCRLF rest
    else c :: replaceCRLF (d :: rest)

/-- The second regex replacement of api.ts line 97: every remaining CR
is replaced by LF. -/
def replaceCR : List Char → List Char
  | [] => []
  | c :: rest => (if c = '\r' then '\n' else c) :: replaceCR rest

/-- Line-ending normalization of api.ts line 97: both replacements in
source order. -/
def normalizeText (s : List Char) : List Char :=
  replaceCR (replaceCRLF s)

/-- One call of the frame-decoding part of SSEParser.feed
(api.ts lines 94-100): append the chunk to the buffer, normalize,
split on the newline character; the last segment (possibly empty)
becomes the new buffer and is not emitted, the other segments are the
decoded logical lines, in order. -/
def feedDecode (buf chunk : List Char) : List (List Char) × List Char :=
  let parts := (normalizeText (buf ++ chunk)).splitOn '\n'
  (parts.dropLast, parts.getLastD [])

/-- Feeding a sequence of chunks through the frame decoder, starting
from a given buffer, collecting all emitted lines in order together
with the final buffer. -/
def feedDecodeAll (buf : List Char) : List (List Char) → List (List Char) × List Char
  | [] => ([], buf)
  | c :: cs =>
    let r := feedDecode buf c
    let rest := feedDecodeAll r.2 cs
    (r.1 ++ rest.1, rest.2)

/-- A partition of the stream text into chunks respects CRLF pairs when
no chunk boundary falls between a CR and an immediately following LF:
no chunk ends with CR while the remaining text begins with LF. -/
def noCRLFSplit : List (List Char) → Bool
  | [] => true
  | c :: cs =>
    !(c.getLast? = some '\r' && (cs.flatten).head? = some '\n') && noCRLFSplit cs

/-!
JSON values and a model of the platform builtin JSON.parse, as used by
the status, recommendations and done handlers of api.ts.  Numbers are
kept as their raw digit components (sign, integer digits, fraction
digits, exponent): none of the handlers ever computes with a numeric
value, only truthiness (zero or not) can matter.
-/

mutual

/-- A parsed JSON value. -/
inductive Json : Type
  | null : Json
  | bool (b : Bool) : Json
  | num (neg : Bool) (intDigits fracDigits : List Char) (expNeg : Bool) (expDigits : List Char) : Json
  | str (s : List Char) : Json
  | arr (xs : JsonArr) : Json
  | obj (fields : JsonObj) : Json
  deriving DecidableEq

/-- A list of JSON array elements, in order. -/
inductive JsonArr : Type
  | nil : JsonArr
  | cons (hd : Json) (tl : JsonArr) : JsonArr
  deriving DecidableEq

/-- The members of a JSON object, in textual order (duplicate keys are
kept; lookup takes the last occurrence, as the JS object built by
JSON.parse does). -/
inductive JsonObj : Type
  | nil : JsonObj
  | cons (key : List Char) (val : Json) (tl : JsonObj) : JsonObj
  deriving DecidableEq

end

/-- JSON insignificant whitespace (RFC 8259): space, tab, LF, CR. -/
def isJsonWs (c : Char) : Bool :=
  c = ' ' || c = '\t' || c = '\n' || c = '\r'

/-- Whitespace trimmed by the JS String.prototype.trim used at
api.ts lines 44, 51, 64, 69 and 108 (the characters that can actually
occur here; decoded lines never contain LF or CR). -/
def isJsWs (c : Char) : Bool :=
  c = ' ' || c = '\t' || c = '\n' || c = '\r' || c = '\x0b' || c = '\x0c' || c = ' '

/-- Model of JS String.prototype.trim: remove leading and trailing
whitespace. -/
def jsTrim (s : List Char) : List Char :=
  ((s.dropWhile isJsWs).reverse.dropWhile isJsWs).reverse

/-- ASCII decimal digit. -/
def isDigitCh (c : Char) : Bool :=
  '0' ≤ c && c ≤ '9'

/-- ASCII hexadecimal digit value, if any (48-57 are the digits,
97-102 lower case a-f, 65-70 upper case A-F). -/
def hexVal (c : Char) : Option Nat :=
  let n := c.toNat
  if 48 ≤ n && n ≤ 57 then some (n - 48)
  else if 97 ≤ n && n ≤ 102 then some (n - 87)
  else if 65 ≤ n && n ≤ 70 then some (n - 55)
  else none

/-- Parse the rest of a JSON string literal (the opening quote already
consumed), returning the decoded characters and the remaining input. -/
def parseStringRest (fuel : Nat) (s : List Char) : Option (List Char × List Char) :=
  match fuel, s with
  | 0, _ => none
  | _, [] => none
  | fuel + 1, c :: r =>
    if c = '"' then some ([], r)
    else if c = '\\' then
      match r with
      | [] => none
      | e :: r' =>
        let cont (dec : Char) (rest : List Char) : Option (List Char × List Char) :=
          (parseStringRest fuel rest).map (fun p => (dec :: p.1, p.2))
        if e = '"' then cont '"' r'
        else if e = '\\' then cont '\\' r'
        else if e = '/' then cont '/' r'
        else if e = 'b' then cont '\x08' r'
        else if e = 'f' then cont '\x0c' r'
        else if e = 'n' then cont '\n' r'
        else if e = 'r' then cont '\r' r'
        else if e = 't' then cont '\t' r'
        else if e = 'u' then
          match r' with
          | h1 :: h2 :: h3 :: h4 :: r'' =>
            match hexVal h1, hexVal h2, hexVal h3, hexVal h4 with
            | some a, some b, some c', some d =>
              cont (Char.ofNat (((a * 16 + b) * 16 + c') * 16 + d)) r''
            | _, _, _, _ => none
          | _ => none
        else none
    else if c.toNat < 0x20 then none
    else (parseStringRest fuel r).map (fun p => (c :: p.1, p.2))

/-- Parse a JSON number starting at the current position (first
character already known to be a minus sign or a digit). -/
def parseNumber (s : List Char) : Option (Json × List Char) :=
  let (neg, s1) := match s with
    | '-' :: r => (true, r)
    | _ => (false, s)
  let intDigits := s1.takeWhile isDigitCh
  let s2 := s1.dropWhile isDigitCh
  -- JSON: integer part is 0, or a nonzero digit followed by digits
  if intDigits = [] then none
  else if intDigits.length > 1 && intDigits.head? = some '0' then none
  else
    let (fracDigits, s3) := match s2 with
      | '.' :: r =>
        (r.takeWhile isDigitCh, r.dropWhile isDigitCh)
      | _ => ([], s2)
    if s2.head? = some '.' && fracDigits = [] then none
    else
      match s3 with
      | 'e' :: r | 'E' :: r =>
        let (expNeg, r1) := match r with
          | '+' :: r' => (false, r')
          | '-' :: r' => (true, r')
          | _ => (false, r)
        let expDigits := r1.takeWhile isDigitCh
        if expDigits = [] then none
        else some (.num neg intDigits fracDigits expNeg expDigits, r1.dropWhile isDigitCh)
      | _ => some (.num neg intDigits fracDigits false [], s3)

mutual

/-- Parse one JSON value (leading whitespace allowed), returning the
value and the remaining input. -/
def parseValue (fuel : Nat) (s : List Char) : Option (Json × List Char) :=
  match fuel with
  | 0 => none
  | fuel + 1 =>
    match s.dropWhile isJsonWs with
    | 'n' :: 'u' :: 'l' :: 'l' :: r => some (.null, r)
    | 't' :: 'r' :: 'u' :: 'e' :: r => some (.bool true, r)
    | 'f' :: 'a' :: 'l' :: 's' :: 'e' :: r => some (.bool false, r)
    | '"' :: r => (parseStringRest fuel r).map (fun p => (.str p.1, p.2))
    | '[' :: r =>
      (match r.dropWhile isJsonWs with
       | ']' :: r' => some (.arr .nil, r')
       | _ => (parseElems fuel r).map (fun p => (.arr p.1, p.2)))
    | '{' :: r =>
      (match r.dropWhile isJsonWs with
       | '}' :: r' => some (.obj .nil, r')
       | _ => (parseMembers fuel r).map (fun p => (.obj p.1, p.2)))
    | c :: r =>
      if c = '-' || isDigitCh c then parseNumber (c :: r) else none
    | [] => none

/-- Parse one or more comma-separated array elements followed by a
closing bracket. -/
def parseElems (fuel : Nat) (s : List Char) : Option (JsonArr × List Char) :=
  match fuel with
  | 0 => none
  | fuel + 1 =>
    match parseValue fuel s with
    | none => none
    | some (v, r) =>
      match r.dropWhile isJsonWs with
      | ',' :: r' => (parseElems fuel r').map (fun p => (.cons v p.1, p.2))
      | ']' :: r' => some (.cons v .nil, r')
      | _ => none

/-- Parse one or more comma-separated object members followed by a
closing brace. -/
def parseMembers (fuel : Nat) (s : List Char) : Option (JsonObj × List Char) :=
  match fuel with
  | 0 => none
  | fuel + 1 =>
    match s.dropWhile isJsonWs with
    | '"' :: r =>
      match parseStringRest fuel r with
      | none => none
      | some (key, r1) =>
        match r1.dropWhile isJsonWs with
        | ':' :: r2 =>
          match parseValue fuel r2 with
          | none => none
          | some (v, r3) =>
            match r3.dropWhile isJsonWs with
            | ',' :: r4 => (parseMembers fuel r4).map (fun p => (.cons key v p.1, p.2))
            | '}' :: r4 => some (.cons key v .nil, r4)
            | _ => none
        | _ => none
    | _ => none

end

/-- Model of the platform builtin JSON.parse: parse a complete JSON
text (trailing whitespace allowed, trailing garbage rejected), or fail. -/
def jsonParse (s : List Char) : Option Json :=
  match parseValue (s.length + 1) s with
  | some (v, r) => if r.dropWhile isJsonWs = [] then some v else none
  | none => none

/-!
Event handlers (EVENT_HANDLERS, api.ts lines 41-75), the dispatcher and
the line-oriented part of SSEParser.feed (lines 102-137), and the
streaming entry point streamRecommendationSSE (lines 142-186).

Callback invocations are modelled as a trace: each handler returns the
list of callback calls it performs, in order.  A JS expression value
that may be undefined is an Option Json (none = undefined).
-/

/-- Last-wins field lookup on a JSON object, as on the JS object built
by JSON.parse (a duplicated key keeps its last value). -/
def JsonObj.lookupLast : JsonObj → List Char → Option Json
  | .nil, _ => none
  | .cons key v tl, k =>
    match tl.lookupLast k with
    | some r => some r
    | none => if key = k then some v else none

/-- Model of the JS property access o.k on a JSON.parse result: on null
it throws a TypeError (error), on an object it yields the field value
or undefined, on any other value it yields undefined. -/
def jsGetField (j : Json) (k : List Char) : Except Unit (Option Json) :=
  match j with
  | .null => .error ()
  | .obj fs => .ok (fs.lookupLast k)
  | _ => .ok none

/-- JS truthiness of a possibly-undefined JSON value: undefined, null,
false, empty string and numeric zero are falsy. -/
def jsTruthy : Option Json → Bool
  | none => false
  | some .null => false
  | some (.bool b) => b
  | some (.num _ intDigits fracDigits _ _) =>
    (intDigits ++ fracDigits).any (fun c => c ≠ '0')
  | some (.str s) => !s.isEmpty
  | some (.arr _) => true
  | some (.obj _) => true

/-- The JS short-circuit a or-else b on possibly-undefined values:
b when a is falsy, a otherwise. -/
def jsOrElse (a b : Option Json) : Option Json :=
  if jsTruthy a then a else b

/-- The stream session context value context.sessionId (a string or
null) as a JS value. -/
def ctxJs : Option (List Char) → Option Json
  | none => some .null
  | some s => some (.str s)

/-- One observed callback invocation of the StreamCallbacks interface
(api.ts lines 24-31). -/
inductive CB : Type
  | onStatus (phase : Option Json) : CB
  | onRecommendations (recs : Json) : CB
  | onToken (tok : List Char) : CB
  | onNarrativeReplace (text : List Char) : CB
  | onDone (sessionId : Option Json) : CB
  | onError (msg : List Char) : CB
  deriving DecidableEq

/-- The status handler (api.ts lines 42-47): JSON.parse the trimmed
payload and report its phase field; a parse failure or a throwing
property access is swallowed and reports nothing. -/
def handleStatus (rawData : List Char) : List CB :=
  match jsonParse (jsTrim rawData) with
  | none => []
  | some j =>
    match jsGetField j ("phase".data) with
    | .error _ => []
    | .ok v => [.onStatus v]

/-- The recommendations handler (api.ts lines 49-54): JSON.parse the
trimmed payload and report the whole parsed value; a parse failure is
swallowed. -/
def handleRecommendations (rawData : List Char) : List CB :=
  match jsonParse (jsTrim rawData) with
  | none => []
  | some j => [.onRecommendations j]

/-- The token handler (api.ts lines 56-61): the raw payload is reported
verbatim, never trimmed. -/
def handleToken (rawData : List Char) : List CB :=
  [.onToken rawData]

/-- The narrative_replace handler (api.ts lines 63-65): the payload is
trimmed and reported. -/
def handleNarrativeReplace (rawData : List Char) : List CB :=
  [.onNarrativeReplace (jsTrim rawData)]

/-- The done handler (api.ts lines 67-74): JSON.parse the trimmed
payload and report doneData.session_id or-else context.sessionId
or-else the empty string; on a parse failure (or a throwing property
access) report context.sessionId or-else the empty string. -/
def handleDone (rawData : List Char) (ctxSessionId : Option (List Char)) : List CB :=
  match jsonParse (jsTrim rawData) with
  | none => [.onDone (jsOrElse (ctxJs ctxSessionId) (some (.str [])))]
  | some j =>
    match jsGetField j ("session_id".data) with
    | .error _ => [.onDone (jsOrElse (ctxJs ctxSessionId) (some (.str [])))]
    | .ok v =>
      [.onDone (jsOrElse (jsOrElse v (ctxJs ctxSessionId)) (some (.str [])))]

/-- The keys of the EVENT_HANDLERS dispatch table (api.ts lines 41-75). -/
def handlerKeys : List (List Char) :=
  ["status".data, "recommendations".data, "token".data,
   "narrative_replace".data, "done".data]

/-- EVENT_HANDLERS is a plain object literal, so the bracket lookup at
api.ts line 133 walks the prototype chain: for these property names of
Object.prototype the lookup yields a truthy inherited value, the guard
passes, and the call handler(rawData, callbacks, context) — made with
an undefined this, since class bodies are strict-mode code — throws a
TypeError (each of these built-ins begins by converting its this value
to an object, and the inherited value of the proto accessor is a plain
object, not callable).  The remaining three inherited names are
harmless: constructor is the Object function and toString tolerates an
undefined this, so their calls return an ignored value, and
isPrototypeOf returns false early because its argument is a string. -/
def protoThrowingNames : List (List Char) :=
  ["hasOwnProperty".data, "propertyIsEnumerable".data, "toLocaleString".data,
   "valueOf".data, "__proto__".data, "__defineGetter__".data,
   "__defineSetter__".data, "__lookupGetter__".data, "__lookupSetter__".data]

/-- Does this event name reach a throwing inherited member of
Object.prototype through the bracket lookup? -/
def isProtoThrowing (name : List Char) : Bool :=
  protoThrowingNames.any (fun k => k = name)

/-- SSEParser.dispatch (api.ts lines 132-137): look the event type up
in EVENT_HANDLERS — the bracket lookup finds the five own keys first,
then walks the prototype chain.  An own key runs its handler; a
throwing inherited member of Object.prototype makes the call raise a
TypeError, which propagates out of feed (the error text rendered later
by the catch is engine specific and is modelled abstractly); every
other name — absent names, whose undefined value fails the guard, and
the three harmless inherited members, whose calls return an ignored
value — produces no callback. -/
def dispatch (ctxSessionId : Option (List Char)) (eventType rawData : List Char) :
    Except (List Char) (List CB) :=
  if eventType = "status".data then .ok (handleStatus rawData)
  else if eventType = "recommendations".data then .ok (handleRecommendations rawData)
  else if eventType = "token".data then .ok (handleToken rawData)
  else if eventType = "narrative_replace".data then .ok (handleNarrativeReplace rawData)
  else if eventType = "done".data then .ok (handleDone rawData ctxSessionId)
  else if isProtoThrowing eventType then .error ("TypeError").data
  else .ok []

/-- Boolean list-head test: does s start with p? (the JS
String.prototype.startsWith used at api.ts lines 104, 107, 113, 120). -/
def startsWith : List Char → List Char → Bool
  | [], _ => true
  | _ :: _, [] => false
  | p :: ps, c :: cs => p = c && startsWith ps cs

/-- Strip exactly one leading space if present (the idiom at
api.ts lines 107 and 120-122). -/
def stripOneSpace (s : List Char) : List Char :=
  if startsWith [' '] s then s.drop 1 else s

/-- Process one decoded logical line (the loop body of SSEParser.feed,
api.ts lines 102-129): an event-typed line stores the trimmed name as
the current event; a data line strips the prefix and at most one
structural space and dispatches — when the dispatch returns normally
the current event is reset to empty (api.ts line 124), but when it
throws, the exception unwinds before that reset and the field keeps
its previous value; every other line is ignored.  Returns the value
the currentEvent field holds afterwards, the emitted callback trace,
and the exception if one was thrown. -/
def processLine (ctxSessionId : Option (List Char)) (currentEvent rawLine : List Char) :
    List Char × List CB × Option (List Char) :=
  if startsWith ("event:".data) rawLine then
    (jsTrim (stripOneSpace (rawLine.drop 6)), [], none)
  else if startsWith ("data:".data) rawLine then
    match dispatch ctxSessionId currentEvent (stripOneSpace (rawLine.drop 5)) with
    | .ok cbs => ([], cbs, none)
    | .error e => (currentEvent, [], some e)
  else
    (currentEvent, [], none)

/-- Process a sequence of decoded lines in order, threading the current
event and concatenating the callback traces; an exception aborts the
loop, leaving the remaining lines unprocessed. -/
def processLines (ctxSessionId : Option (List Char)) :
    List Char → List (List Char) → List Char × List CB × Option (List Char)
  | currentEvent, [] => (currentEvent, [], none)
  | currentEvent, l :: ls =>
    let r := processLine ctxSessionId currentEvent l
    match r.2.2 with
    | some e => (r.1, r.2.1, some e)
    | none =>
      let rest := processLines ctxSessionId r.1 ls
      (rest.1, r.2.1 ++ rest.2.1, rest.2.2)

/-- The mutable state of one SSEParser instance (api.ts lines 79-83):
the decoder buffer and the pending event type, both initially empty. -/
structure SSEState : Type where
  buffer : List Char
  currentEvent : List Char
  deriving DecidableEq

/-- The initial SSEParser state. -/
def initState : SSEState :=
  { buffer := [], currentEvent := [] }

/-- SSEParser.feed (api.ts lines 94-130): decode the chunk into
complete lines (the buffer is updated before the loop, api.ts line
100, so it is updated even when a later dispatch throws), then process
each line in order; a dispatch exception propagates out of feed. -/
def feed (ctxSessionId : Option (List Char)) (st : SSEState) (chunk : List Char) :
    SSEState × List CB × Option (List Char) :=
  let d := feedDecode st.buffer chunk
  let p := processLines ctxSessionId st.currentEvent d.1
  ({ buffer := d.2, currentEvent := p.1 }, p.2.1, p.2.2)

/-- Feed a sequence of chunks to one SSEParser instance, in order; an
exception escaping feed aborts the read loop, so the remaining chunks
are never fed. -/
def feedMany (ctxSessionId : Option (List Char)) :
    SSEState → List (List Char) → SSEState × List CB × Option (List Char)
  | st, [] => (st, [], none)
  | st, c :: cs =>
    let r := feed ctxSessionId st c
    match r.2.2 with
    | some e => (r.1, r.2.1, some e)
    | none =>
      let rest := feedMany ctxSessionId r.1 cs
      (rest.1, r.2.1 ++ rest.2.1, rest.2.2)

/-- The callback trace produced by feeding a chunk sequence to a fresh
SSEParser with the given stream session id (the callbacks invoked
before any exception). -/
def runChunks (ctxSessionId : Option (List Char)) (chunks : List (List Char)) : List CB :=
  (feedMany ctxSessionId initState chunks).2.1

/-- The exception, if any, that escaped the parser while feeding a
chunk sequence to a fresh SSEParser. -/
def runChunksErr (ctxSessionId : Option (List Char)) (chunks : List (List Char)) :
    Option (List Char) :=
  (feedMany ctxSessionId initState chunks).2.2

/-- The transport outcome observed by streamRecommendationSSE: either
fetch itself fails, or a response arrives with its ok flag, HTTP
status, body text (read only on the error path), and — when the body
is readable — the sequence of text chunks the reader delivers followed
by either a clean end of stream (none) or a read error (some message). -/
inductive Transport : Type
  | fetchFailure (err : List Char) : Transport
  | response (ok : Bool) (status : Nat) (bodyText : List Char)
      (body : Option (List (List Char) × Option (List Char))) : Transport

/-- streamRecommendationSSE (api.ts lines 142-186): on a non-ok
response report the status and body text once through onError and stop
before reading any chunk; on a missing readable body report once
through onError; otherwise feed the delivered chunks to a fresh
SSEParser.  The try/catch wraps the whole read loop, so a dispatch
exception escaping feed reaches the catch and is reported once through
onError (after whatever the parser already dispatched), the remaining
chunks unread; only when the parser raises nothing does a transport
read error, if any, reach the catch the same way. -/
def streamRecommendationSSE (t : Transport) (sessionId : Option (List Char)) : List CB :=
  match t with
  | .fetchFailure e => [.onError (("Error de conexión: ").data ++ e)]
  | .response ok status bodyText body =>
    if !ok then
      [.onError (("Error ").data ++ (toString status).data ++ (": ").data ++ bodyText)]
    else
      match body with
      | none => [.onError ("No readable stream available").data]
      | some (chunks, endErr) =>
        let r := feedMany sessionId initState chunks
        match r.2.2 with
        | some e => r.2.1 ++ [.onError (("Error de conexión: ").data ++ e)]
        | none =>
          match endErr with
          | none => r.2.1
          | some e => r.2.1 ++ [.onError (("Error de conexión: ").data ++ e)]

/-- Structural characterization of splitting on the newline character:
the completed lines and the trailing unterminated segment. -/
def splitNl : List Char → List (List Char) × List Char
  | [] => ([], [])
  | c :: r =>
    if c = '\n' then ([] :: (splitNl r).1, (splitNl r).2)
    else
      match (splitNl r).1 with
      | [] => ([], c :: (splitNl r).2)
      | h :: t => ((c :: h) :: t, (splitNl r).2)

/-!
The concrete stream of spec section 8, properties 7 and 8, and the
callback sequence it must produce.
-/

/-- The full stream text of spec section 8 property 7. -/
def sampleStream : List Char :=
  ("event: status\ndata: \x7b\"phase\":\"searching\"\x7d\n\nevent: token\ndata:  Hola\n\nevent: token\ndata:  mundo\n\nevent: done\ndata: \x7b\"session_id\":\"abc\"\x7d\n\n").data
/-- The callback sequence required for the stream of spec section 8
property 7: phase searching, the two token fragments with their leading
spaces, completion with abc. -/
def expectedTrace : List CB :=
  [.onStatus (some (.str ("searching".data))), .onToken (" Hola".data),
   .onToken (" mundo".data), .onDone (some (.str ("abc".data)))]

/-- Discriminator for completion-callback invocations. -/
def isDoneCB : CB → Bool
  | .onDone _ => true
  | _ => false

/-- Discriminator for failure-callback invocations. -/
def isErrorCB : CB → Bool
  | .onError _ => true
  | _ => false

/-!
Lemmas about the frame decoder, leading to the chunk-boundary
invariance property (claim C1).
-/

theorem replaceCR_append (a b : List Char) :
    replaceCR (a ++ b) = replaceCR a ++ replaceCR b := by
  induction a with
  | nil => rfl
  | cons c a ih => simp [replaceCR, ih]

theorem not_cr_mem_replaceCR (l : List Char) : '\r' ∉ replaceCR l := by
  induction l with
  | nil => simp [replaceCR]
  | cons c l ih =>
    simp only [replaceCR, List.mem_cons, not_or]
    refine ⟨?_, ih⟩
    by_cases hc : c = '\r'
    · simp [hc]
    · simp [hc, Ne.symm hc]

theorem replaceCR_eq_self (l : List Char) (h : '\r' ∉ l) : replaceCR l = l := by
  induction l with
  | nil => rfl
  | cons c l ih =>
    simp only [List.mem_cons, not_or] at h
    have h1 : c ≠ '\r' := fun hh => h.1 hh.symm
    simp [replaceCR, if_neg h1, ih h.2]

theorem replaceCRLF_eq_self (l : List Char) (h : '\r' ∉ l) : replaceCRLF l = l := by
  induction l with
  | nil => rfl
  | cons c l ih =>
    simp only [List.mem_cons, not_or] at h
    cases l with
    | nil => rfl
    | cons d l' =>
      have h1 : c ≠ '\r' := fun hh => h.1 hh.symm
      rw [replaceCRLF, if_neg (by simp [h1]), ih h.2]

theorem replaceCRLF_append (a : List Char) :
    ∀ b : List Char, ¬(a.getLast? = some '\r' ∧ b.head? = some '\n') →
    replaceCRLF (a ++ b) = replaceCRLF a ++ replaceCRLF b := by
  induction a using replaceCRLF.induct with
  | case1 =>
    intro b _
    rfl
  | case2 c =>
    intro b hb
    cases b with
    | nil => simp [replaceCRLF]
    | cons e b' =>
      have hcd : ¬(c = '\r' && e = '\n') = true := by
        simp only [List.getLast?_singleton, List.head?_cons, Option.some.injEq] at hb
        simp only [Bool.and_eq_true, decide_eq_true_eq, not_and]
        intro h1 h2
        exact hb ⟨h1, h2⟩
      show replaceCRLF (c :: e :: b') = replaceCRLF [c] ++ replaceCRLF (e :: b')
      simp only [replaceCRLF]
      rw [if_neg hcd]
      simp
  | case3 c d rest hcd ih =>
    intro b hb
    have hrest : ¬(rest.getLast? = some '\r' ∧ b.head? = some '\n') := by
      rintro ⟨h1, h2⟩
      apply hb
      refine ⟨?_, h2⟩
      rw [List.getLast?_cons_cons]
      cases rest with
      | nil => exact absurd h1 (by simp)
      | cons r0 rs => rw [List.getLast?_cons_cons]; exact h1
    show replaceCRLF (c :: d :: (rest ++ b)) = replaceCRLF (c :: d :: rest) ++ replaceCRLF b
    rw [replaceCRLF, if_pos hcd, ih b hrest]
    conv_rhs => rw [replaceCRLF, if_pos hcd]
    rfl
  | case4 c d rest hcd ih =>
    intro b hb
    have hrest : ¬((d :: rest).getLast? = some '\r' ∧ b.head? = some '\n') := by
      rintro ⟨h1, h2⟩
      exact hb ⟨by rw [List.getLast?_cons_cons]; exact h1, h2⟩
    show replaceCRLF (c :: d :: (rest ++ b)) = replaceCRLF (c :: d :: rest) ++ replaceCRLF b
    rw [replaceCRLF, if_neg hcd,
      show d :: (rest ++ b) = (d :: rest) ++ b from rfl, ih b hrest]
    conv_rhs => rw [replaceCRLF, if_neg hcd]
    rfl

/-- Line-ending normalization distributes over concatenation as long as
the junction does not split a CR LF pair. -/
theorem normalizeText_append (a b : List Char)
    (h : ¬(a.getLast? = some '\r' ∧ b.head? = some '\n')) :
    normalizeText (a ++ b) = normalizeText a ++ normalizeText b := by
  rw [normalizeText, normalizeText, normalizeText, replaceCRLF_append a b h,
    replaceCR_append]

theorem not_cr_mem_normalizeText (s : List Char) : '\r' ∉ normalizeText s :=
  not_cr_mem_replaceCR _

theorem normalizeText_eq_self (s : List Char) (h : '\r' ∉ s) :
    normalizeText s = s := by
  rw [normalizeText, replaceCRLF_eq_self s h, replaceCR_eq_self s h]

theorem splitOn_eq_splitNl (l : List Char) :
    l.splitOn '\n' = (splitNl l).1 ++ [(splitNl l).2] := by
  induction l with
  | nil => rfl
  | cons c l ih =>
    rw [List.splitOn] at ih ⊢
    rw [List.splitOnP_cons]
    by_cases hc : c = '\n'
    · subst hc
      rw [if_pos (by simp), ih]
      simp [splitNl]
    · rw [if_neg (by simp [hc]), ih]
      rcases hp : (splitNl l).1 with _ | ⟨h, t⟩
      · simp [splitNl, hp, if_neg hc]
      · simp [splitNl, hp, if_neg hc]

theorem splitNl_of_not_mem (l : List Char) (h : '\n' ∉ l) : splitNl l = ([], l) := by
  induction l with
  | nil => rfl
  | cons c l ih =>
    simp only [List.mem_cons, not_or] at h
    have h1 : c ≠ '\n' := fun hh => h.1 hh.symm
    simp [splitNl, if_neg h1, ih h.2]

theorem mem_splitNl_snd (l : List Char) (c : Char) (h : c ∈ (splitNl l).2) :
    c ∈ l ∧ c ≠ '\n' := by
  induction l with
  | nil => exact absurd h (by simp [splitNl])
  | cons d l ih =>
    by_cases hd : d = '\n'
    · subst hd
      simp only [splitNl, if_pos rfl] at h
      have := ih h
      exact ⟨List.mem_cons_of_mem _ this.1, this.2⟩
    · rcases hp : (splitNl l).1 with _ | ⟨h1, t1⟩
      · simp only [splitNl, if_neg hd, hp] at h
        rcases List.mem_cons.mp h with rfl | h2
        · exact ⟨List.mem_cons_self _ _, hd⟩
        · have := ih h2
          exact ⟨List.mem_cons_of_mem _ this.1, this.2⟩
      · simp only [splitNl, if_neg hd, hp] at h
        have := ih h
        exact ⟨List.mem_cons_of_mem _ this.1, this.2⟩

theorem splitNl_cons_nl (r : List Char) :
    splitNl ('\n' :: r) = ([] :: (splitNl r).1, (splitNl r).2) := by
  simp [splitNl]

theorem splitNl_cons_ne_nil (c : Char) (r : List Char) (hc : c ≠ '\n')
    (hp : (splitNl r).1 = []) :
    splitNl (c :: r) = ([], c :: (splitNl r).2) := by
  simp [splitNl, hc, hp]

theorem splitNl_cons_ne_cons (c : Char) (r : List Char) (h : List Char)
    (t : List (List Char)) (hc : c ≠ '\n') (hp : (splitNl r).1 = h :: t) :
    splitNl (c :: r) = ((c :: h) :: t, (splitNl r).2) := by
  simp [splitNl, hc, hp]

theorem splitNl_append_no_lines (u : List Char) :
    ∀ w : List Char, (splitNl w).1 = [] →
    splitNl (u ++ w) = ((splitNl u).1, (splitNl u).2 ++ (splitNl w).2) := by
  induction u with
  | nil =>
    intro w hw
    rw [List.nil_append, show splitNl w = ((splitNl w).1, (splitNl w).2) from rfl, hw]
    rfl
  | cons c u ih =>
    intro w hw
    have hiw := ih w hw
    by_cases hc : c = '\n'
    · subst hc
      rw [List.cons_append, splitNl_cons_nl, splitNl_cons_nl, hiw]
    · rcases hp : (splitNl u).1 with _ | ⟨h1, t1⟩
      · have hiw1 : (splitNl (u ++ w)).1 = [] := by rw [hiw]; exact hp
        rw [List.cons_append, splitNl_cons_ne_nil c _ hc hiw1,
          splitNl_cons_ne_nil c u hc hp, hiw]
        simp
      · have hiw1 : (splitNl (u ++ w)).1 = h1 :: t1 := by rw [hiw]; exact hp
        rw [List.cons_append, splitNl_cons_ne_cons c _ h1 t1 hc hiw1,
          splitNl_cons_ne_cons c u h1 t1 hc hp, hiw]

theorem splitNl_append_cons (u : List Char) :
    ∀ (w : List Char) (h : List Char) (t : List (List Char)),
    (splitNl w).1 = h :: t →
    splitNl (u ++ w) =
      ((splitNl u).1 ++ ((splitNl u).2 ++ h) :: t, (splitNl w).2) := by
  induction u with
  | nil =>
    intro w h t hw
    rw [List.nil_append, show splitNl w = ((splitNl w).1, (splitNl w).2) from rfl, hw]
    rfl
  | cons c u ih =>
    intro w h t hw
    have hiw := ih w h t hw
    by_cases hc : c = '\n'
    · subst hc
      rw [List.cons_append, splitNl_cons_nl, splitNl_cons_nl, hiw]
      simp
    · rcases hp : (splitNl u).1 with _ | ⟨h1, t1⟩
      · have hiw1 : (splitNl (u ++ w)).1 = ((splitNl u).2 ++ h) :: t := by
          rw [hiw, hp]; rfl
        rw [List.cons_append,
          splitNl_cons_ne_cons c _ ((splitNl u).2 ++ h) t hc hiw1,
          splitNl_cons_ne_nil c u hc hp, hiw]
        simp
      · have hiw1 : (splitNl (u ++ w)).1 = h1 :: (t1 ++ ((splitNl u).2 ++ h) :: t) := by
          rw [hiw, hp]
          simp
        rw [List.cons_append,
          splitNl_cons_ne_cons c (u ++ w) h1 (t1 ++ ((splitNl u).2 ++ h) :: t) hc hiw1,
          splitNl_cons_ne_cons c u h1 t1 hc hp, hiw]
        simp

theorem feedDecode_eq (buf chunk : List Char) :
    feedDecode buf chunk =
      ((splitNl (normalizeText (buf ++ chunk))).1,
       (splitNl (normalizeText (buf ++ chunk))).2) := by
  rw [feedDecode, splitOn_eq_splitNl]
  simp [List.dropLast_concat, List.getLastD_eq_getLast?, List.getLast?_concat]

/-- Feeding a chunk sequence with clean boundaries from a clean buffer
emits exactly the completed lines of the whole normalized text, and
retains its trailing segment. -/
theorem feedDecodeAll_eq (cs : List (List Char)) :
    ∀ buf : List Char, (∀ c ∈ buf, c ≠ '\n' ∧ c ≠ '\r') →
    noCRLFSplit cs = true →
    feedDecodeAll buf cs =
      ((splitNl (normalizeText (buf ++ cs.flatten))).1,
       (splitNl (normalizeText (buf ++ cs.flatten))).2) := by
  induction cs with
  | nil =>
    intro buf hbuf _
    have hcr : '\r' ∉ buf := fun hm => (hbuf _ hm).2 rfl
    have hnl : '\n' ∉ buf := fun hm => (hbuf _ hm).1 rfl
    simp [feedDecodeAll, normalizeText_eq_self buf hcr, splitNl_of_not_mem buf hnl]
  | cons c cs ih =>
    intro buf hbuf hsplit
    rw [noCRLFSplit] at hsplit
    simp only [Bool.and_eq_true, Bool.not_eq_true', Bool.and_eq_false_iff,
      decide_eq_false_iff_not] at hsplit
    have hsplit2 : noCRLFSplit cs = true := hsplit.2
    have hbc : ¬((buf ++ c).getLast? = some '\r' ∧ (cs.flatten).head? = some '\n') := by
      rintro ⟨h1, h2⟩
      rw [List.getLast?_append] at h1
      cases hcl : c.getLast? with
      | some x =>
        rw [hcl] at h1
        simp only [Option.or_some] at h1
        cases h1
        rcases hsplit.1 with hA | hB
        · exact hA hcl
        · exact hB h2
      | none =>
        rw [hcl] at h1
        simp only [Option.none_or] at h1
        exact (hbuf _ (List.mem_of_getLast?_eq_some h1)).2 rfl
    have hB1 : ∀ x ∈ (splitNl (normalizeText (buf ++ c))).2, x ≠ '\n' ∧ x ≠ '\r' := by
      intro x hx
      have h1 := mem_splitNl_snd _ x hx
      refine ⟨h1.2, fun hr => ?_⟩
      subst hr
      exact not_cr_mem_normalizeText _ h1.1
    have hcr1 : '\r' ∉ (splitNl (normalizeText (buf ++ c))).2 :=
      fun hm => (hB1 _ hm).2 rfl
    have hnl1 : '\n' ∉ (splitNl (normalizeText (buf ++ c))).2 :=
      fun hm => (hB1 _ hm).1 rfl
    have hIH := ih _ hB1 hsplit2
    have hnorm1 : normalizeText ((splitNl (normalizeText (buf ++ c))).2 ++ cs.flatten)
        = (splitNl (normalizeText (buf ++ c))).2 ++ normalizeText cs.flatten := by
      rw [normalizeText_append _ _ ?_, normalizeText_eq_self _ hcr1]
      rintro ⟨h1, _⟩
      exact hcr1 (List.mem_of_getLast?_eq_some h1)
    have hnorm2 : normalizeText (buf ++ (c :: cs).flatten)
        = normalizeText (buf ++ c) ++ normalizeText cs.flatten := by
      rw [show buf ++ (c :: cs).flatten = (buf ++ c) ++ cs.flatten from by
        simp [List.flatten_cons], normalizeText_append _ _ hbc]
    rw [show feedDecodeAll buf (c :: cs)
        = ((feedDecode buf c).1 ++ (feedDecodeAll (feedDecode buf c).2 cs).1,
           (feedDecodeAll (feedDecode buf c).2 cs).2) from rfl]
    rw [feedDecode_eq, hIH, hnorm1, hnorm2]
    have hsb := splitNl_of_not_mem _ hnl1
    rcases hv : (splitNl (normalizeText cs.flatten)).1 with _ | ⟨h, t⟩
    · rw [splitNl_append_no_lines _ _ hv, splitNl_append_no_lines _ _ hv, hsb]
      simp
    · rw [splitNl_append_cons _ _ h t hv, splitNl_append_cons _ _ h t hv, hsb]
      simp

/-- Claim C1, counterexample: the stream text CR LF partitioned into
the two chunks CR and LF makes the frame decoder emit two empty
logical lines, while the same text fed as a single chunk emits one, so
the emitted line sequences differ when a chunk boundary falls inside a
CRLF pair. -/
theorem claim1_cex :
    ([['\r'], ['\n']] : List (List Char)).flatten = ['\r', '\n'] ∧
    (feedDecodeAll [] [['\r'], ['\n']]).1 ≠ (feedDecode [] ['\r', '\n']).1 := by
  constructor
  · rfl
  · decide

/-- Claim C1, amended: for every full stream text and every way of
partitioning it into a sequence of chunks in which no chunk boundary
falls between a CR and an immediately following LF, feeding the chunks
in order to the frame decoder emits exactly the same ordered sequence
of logical lines as feeding the entire text as a single chunk — no
line is emitted twice, none is dropped, and order is preserved. -/
theorem claim1_chunk_invariance (cs : List (List Char)) (h : noCRLFSplit cs = true) :
    (feedDecodeAll [] cs).1 = (feedDecode [] cs.flatten).1 := by
  rw [feedDecodeAll_eq cs [] (by simp) h, feedDecode_eq]

theorem claim1_witness :
    noCRLFSplit [('a' :: '\n' :: []), ('\r' :: []), ('b' :: 'c' :: [])] = true ∧
    (feedDecodeAll [] [('a' :: '\n' :: []), ('\r' :: []), ('b' :: 'c' :: [])]).1
      = (feedDecode []
          (([('a' :: '\n' :: []), ('\r' :: []), ('b' :: 'c' :: [])] :
            List (List Char)).flatten)).1 :=
  ⟨by decide, claim1_chunk_invariance _ (by decide)⟩
/-- Claim C2: for every decoded line beginning with the five-character
data prefix, the payload passed to dispatch is the rest of the line
with exactly one leading space removed if one is present and nothing
else removed: a line whose rest begins with a space dispatches the rest
minus that one space (any further spaces are preserved), a line whose
rest does not begin with a space dispatches the rest verbatim; in
particular the three spec examples, observed end to end through a
token event, yield payloads with one space preserved, none, and none. -/
theorem claim2_payload :
    (∀ (t cur : List Char) (ctx : Option (List Char)),
      processLine ctx cur (("data: ").data ++ t) =
        (match dispatch ctx cur t with
         | .ok cbs => (([] : List Char), cbs, (none : Option (List Char)))
         | .error e => (cur, [], some e))) ∧
    (∀ (rest cur : List Char) (ctx : Option (List Char)), rest.head? ≠ some ' ' →
      processLine ctx cur (("data:").data ++ rest) =
        (match dispatch ctx cur rest with
         | .ok cbs => (([] : List Char), cbs, (none : Option (List Char)))
         | .error e => (cur, [], some e))) ∧
    runChunks none [("event: token\ndata:  bien\n").data] = [.onToken ((" bien").data)] ∧
    runChunks none [("event: token\ndata: bien\n").data] = [.onToken (("bien").data)] ∧
    runChunks none [("event: token\ndata:bien\n").data] = [.onToken (("bien").data)] := by
  refine ⟨?_, ?_, by decide, by decide, by decide⟩
  · intro t cur ctx
    rfl
  · intro rest cur ctx h
    rcases rest with _ | ⟨c, t⟩
    · rfl
    · have hc : ¬(' ' = c) := by
        intro hh
        exact h (by rw [List.head?_cons, hh])
      have hstrip : stripOneSpace (c :: t) = c :: t := by
        rw [stripOneSpace, if_neg ?_]
        rw [show startsWith ([' '] : List Char) (c :: t) = (decide (' ' = c) && true) from rfl]
        simp [hc]
      rw [show processLine ctx cur (("data:").data ++ c :: t) =
          (match dispatch ctx cur (stripOneSpace (c :: t)) with
           | .ok cbs => (([] : List Char), cbs, (none : Option (List Char)))
           | .error e => (cur, [], some e)) from rfl, hstrip]

theorem claim2_witness :
    (("x").data).head? ≠ some ' ' ∧
    processLine none (("token").data) (("data:").data ++ ("x").data)
      = ([], [CB.onToken (("x").data)], none) :=
  ⟨by decide, claim2_payload.2.1 (("x").data) (("token").data) none (by decide)⟩

/-- Claim C3: feeding the stream of spec section 8 property 7 as a
single chunk produces exactly the callbacks onStatus searching,
onToken with the fragment space-Hola, onToken with the fragment
space-mundo, and onDone abc, in that order (so the concatenated
fragments read space-Hola-space-mundo), and splitting the input into
two chunks at any byte offset k with 82 ≤ k ≤ 94 — the span of the
line data-colon-space-space-mundo, including its boundaries — produces
the identical callback sequence. -/
theorem claim3_scenario :
    runChunks none [sampleStream] = expectedTrace ∧
    (∀ k : Nat, k ≤ 94 → 82 ≤ k →
      runChunks none [sampleStream.take k, sampleStream.drop k] = expectedTrace) := by
  constructor
  · decide
  · decide

theorem claim3_witness :
    88 ≤ 94 ∧ 82 ≤ 88 ∧
    runChunks none [sampleStream.take 88, sampleStream.drop 88] = expectedTrace :=
  ⟨by decide, by decide, claim3_scenario.2 88 (by decide) (by decide)⟩

/-- Claim C5, counterexample: a data line processed while the pending
event name is hasOwnProperty does not reset the pending name to empty —
the prototype-chain lookup yields a throwing inherited member, the
exception unwinds before the reset at api.ts line 124 runs, and the
field still holds hasOwnProperty afterwards. -/
theorem claim5_cex :
    (processLine none (("hasOwnProperty").data) (("data: x").data)).1
      = ("hasOwnProperty").data ∧
    (("hasOwnProperty").data : List Char) ≠ [] ∧
    (processLine none (("hasOwnProperty").data) (("data: x").data)).2.2
      = some (("TypeError").data) := by
  refine ⟨rfl, by decide, rfl⟩

/-- Claim C5, amended: the assembler holds at most one pending event
type: processing any event-typed line replaces the stored pending name
with the new line's name no matter what was pending before (last
wins); processing any data line whose dispatch returns normally resets
the pending name to empty whether or not a handler was found, while a
dispatch that throws skips the reset and the pending name keeps its
previous value; concretely, two consecutive event lines followed by
one data line dispatch using the second name only. -/
theorem claim5_pending :
    (∀ (ctx : Option (List Char)) (cur rest : List Char),
      processLine ctx cur (("event:").data ++ rest)
        = (jsTrim (stripOneSpace rest), [], none)) ∧
    (∀ (ctx : Option (List Char)) (cur rest : List Char) (cbs : List CB),
      dispatch ctx cur (stripOneSpace rest) = .ok cbs →
      processLine ctx cur (("data:").data ++ rest) = ([], cbs, none)) ∧
    (∀ (ctx : Option (List Char)) (cur rest e : List Char),
      dispatch ctx cur (stripOneSpace rest) = .error e →
      processLine ctx cur (("data:").data ++ rest) = (cur, [], some e)) ∧
    runChunks none [("event: status\nevent: token\ndata:  hi\n").data]
      = [.onToken ((" hi").data)] := by
  refine ⟨?_, ?_, ?_, by decide⟩
  · intro ctx cur rest
    rfl
  · intro ctx cur rest cbs h
    rw [show processLine ctx cur (("data:").data ++ rest) =
        (match dispatch ctx cur (stripOneSpace rest) with
         | .ok cbs => (([] : List Char), cbs, (none : Option (List Char)))
         | .error e => (cur, [], some e)) from rfl, h]
  · intro ctx cur rest e h
    rw [show processLine ctx cur (("data:").data ++ rest) =
        (match dispatch ctx cur (stripOneSpace rest) with
         | .ok cbs => (([] : List Char), cbs, (none : Option (List Char)))
         | .error e => (cur, [], some e)) from rfl, h]

theorem claim5_witness :
    dispatch none (("token").data) (stripOneSpace ((" hi").data))
      = .ok [CB.onToken (("hi").data)] ∧
    processLine none (("token").data) (("data:").data ++ (" hi").data)
      = ([], [CB.onToken (("hi").data)], none) :=
  ⟨rfl, claim5_pending.2.1 none (("token").data) ((" hi").data)
    [CB.onToken (("hi").data)] rfl⟩

theorem ctx_fallback_eq (ctx : Option (List Char)) :
    jsOrElse (ctxJs ctx) (some (.str [])) = some (.str (ctx.getD [])) := by
  cases ctx with
  | none => rfl
  | some s =>
    cases s with
    | nil => rfl
    | cons a t => rfl

/-- Claim C4: the done handler always invokes the completion callback
exactly once; with the session field present as a non-empty string it
reports that string; with the payload unparsable, or parsed with the
field absent, or parsed with the field an empty string, it reports the
session identifier the stream was started with if any, else the empty
string — a malformed done payload is never dropped. -/
theorem claim4_done_fallback (raw : List Char) (ctx : Option (List Char)) :
    (∃ v, handleDone raw ctx = [CB.onDone v]) ∧
    (∀ j s, jsonParse (jsTrim raw) = some j →
      jsGetField j (("session_id").data) = .ok (some (.str s)) → s ≠ [] →
      handleDone raw ctx = [CB.onDone (some (.str s))]) ∧
    (jsonParse (jsTrim raw) = none →
      handleDone raw ctx = [CB.onDone (some (.str (ctx.getD [])))]) ∧
    (∀ j, jsonParse (jsTrim raw) = some j →
      jsGetField j (("session_id").data) = .ok none →
      handleDone raw ctx = [CB.onDone (some (.str (ctx.getD [])))]) ∧
    (∀ j, jsonParse (jsTrim raw) = some j →
      jsGetField j (("session_id").data) = .ok (some (.str [])) →
      handleDone raw ctx = [CB.onDone (some (.str (ctx.getD [])))]) := by
  refine ⟨?_, ?_, ?_, ?_, ?_⟩
  · cases hp : jsonParse (jsTrim raw) with
    | none =>
      exact ⟨jsOrElse (ctxJs ctx) (some (.str [])), by simp only [handleDone, hp]⟩
    | some j =>
      cases hf : jsGetField j (("session_id").data) with
      | error e =>
        exact ⟨jsOrElse (ctxJs ctx) (some (.str [])), by simp only [handleDone, hp, hf]⟩
      | ok v =>
        exact ⟨jsOrElse (jsOrElse v (ctxJs ctx)) (some (.str [])),
          by simp only [handleDone, hp, hf]⟩
  · intro j s hp hf hs
    have hne : s.isEmpty = false := by
      cases s with
      | nil => exact absurd rfl hs
      | cons a t => rfl
    simp only [handleDone, hp, hf]
    rw [show jsOrElse (some (Json.str s)) (ctxJs ctx) = some (Json.str s) from by
        rw [jsOrElse, if_pos (by simp [jsTruthy, hne])],
      show jsOrElse (some (Json.str s)) (some (Json.str [])) = some (Json.str s) from by
        rw [jsOrElse, if_pos (by simp [jsTruthy, hne])]]
  · intro hp
    simp only [handleDone, hp]
    rw [ctx_fallback_eq]
  · intro j hp hf
    simp only [handleDone, hp, hf]
    rw [show jsOrElse none (ctxJs ctx) = ctxJs ctx from rfl, ctx_fallback_eq]
  · intro j hp hf
    simp only [handleDone, hp, hf]
    rw [show jsOrElse (some (Json.str [])) (ctxJs ctx) = ctxJs ctx from rfl,
      ctx_fallback_eq]

theorem claim4_witness :
    handleDone (("\x7b\x7d").data) (some (("s0").data))
      = [CB.onDone (some (.str (("s0").data)))] :=
  (claim4_done_fallback (("\x7b\x7d").data) (some (("s0").data))).2.2.2.1
    (Json.obj JsonObj.nil) (by decide) rfl

/-- Claim C6: a status event whose payload fails to parse as JSON
produces no callback at all (the exception is swallowed inside the
handler), and processing of subsequent events is unaffected: a valid
token event after the malformed status event is still dispatched. -/
theorem claim6_status_malformed :
    (∀ raw : List Char, jsonParse (jsTrim raw) = none → handleStatus raw = []) ∧
    runChunks none [("event: status\ndata: nope\n\nevent: token\ndata:  ok!\n").data]
      = [.onToken ((" ok!").data)] := by
  refine ⟨?_, by decide⟩
  intro raw hp
  simp [handleStatus, hp]

theorem claim6_witness :
    jsonParse (jsTrim (("nope").data)) = none ∧
    handleStatus (("nope").data) = [] :=
  ⟨by decide, claim6_status_malformed.1 (("nope").data) (by decide)⟩

/-- Claim C7, counterexample: the event name hasOwnProperty is not a
key of the dispatch table, yet its event/data pair is not silently
dropped: the bracket lookup finds the inherited member, the truthiness
guard passes, the strict-mode call throws, the exception surfaces as
the failure callback, and the stream aborts — the following token
event is never dispatched. -/
theorem claim7_cex :
    ((("hasOwnProperty").data) ∉ handlerKeys) ∧
    dispatch none (("hasOwnProperty").data) (("x").data) = .error (("TypeError").data) ∧
    streamRecommendationSSE
        (.response true 200 []
          (some ([("event: hasOwnProperty\ndata: x\n\nevent: token\ndata:  z\n").data],
                 none))) none
      = [.onError (("Error de conexión: TypeError").data)] := by
  refine ⟨by decide, rfl, by decide⟩

/-- Claim C7, amended: for every event/data pair whose event name is
neither a key of the dispatch table nor a throwing member inherited
from Object.prototype — including the empty name arising when a data
line precedes any event line, and names the table simply lacks —
dispatch invokes no callback and raises no error, and the stream
continues with the next line; an event name that reaches a throwing
inherited member instead raises a TypeError that surfaces as the
failure callback and aborts the stream. -/
theorem claim7_unknown_event :
    (∀ (ctx : Option (List Char)) (name raw : List Char),
      name ∉ handlerKeys → isProtoThrowing name = false →
      dispatch ctx name raw = .ok []) ∧
    (([] : List Char) ∉ handlerKeys ∧ isProtoThrowing ([] : List Char) = false) ∧
    runChunks none
      [("event: mystery\ndata: x\n\ndata: y\n\nevent: token\ndata:  z\n").data]
      = [.onToken ((" z").data)] ∧
    runChunksErr none
      [("event: mystery\ndata: x\n\ndata: y\n\nevent: token\ndata:  z\n").data] = none ∧
    (∀ (ctx : Option (List Char)) (name raw : List Char),
      isProtoThrowing name = true →
      dispatch ctx name raw = .error (("TypeError").data)) := by
  refine ⟨?_, ⟨by decide, by decide⟩, by decide, by decide, ?_⟩
  · intro ctx name raw h hp
    simp only [handlerKeys, List.mem_cons, List.not_mem_nil, or_false, not_or] at h
    obtain ⟨h1, h2, h3, h4, h5⟩ := h
    rw [dispatch, if_neg h1, if_neg h2, if_neg h3, if_neg h4, if_neg h5,
      if_neg (by rw [hp]; exact Bool.false_ne_true)]
  · intro ctx name raw h
    simp only [isProtoThrowing, protoThrowingNames, List.any_cons, List.any_nil,
      Bool.or_eq_true, Bool.or_false, decide_eq_true_eq] at h
    rcases h with h|h|h|h|h|h|h|h|h <;> rw [← h] <;> rfl

theorem claim7_witness :
    ((("mystery").data) ∉ handlerKeys) ∧ isProtoThrowing (("mystery").data) = false ∧
    dispatch none (("mystery").data) (("x").data) = .ok [] :=
  ⟨by decide, by decide,
   claim7_unknown_event.1 none (("mystery").data) (("x").data) (by decide) (by decide)⟩

/-- Claim C8: when the transport reports a non-success HTTP status, the
stream function invokes the failure callback exactly once with a
message consisting of the status and the response body text, the
result is the same whatever the body would have delivered (the
chunk-consumption loop is never entered), and the completion callback
is never invoked; the status digits and the body text occur inside the
reported message. -/
theorem claim8_http_error (status : Nat) (bodyText : List Char)
    (body : Option (List (List Char) × Option (List Char))) (sid : Option (List Char)) :
    streamRecommendationSSE (.response false status bodyText body) sid
      = [.onError (("Error ").data ++ (toString status).data ++ (": ").data ++ bodyText)] ∧
    (∀ cb ∈ streamRecommendationSSE (.response false status bodyText body) sid,
      ∀ v, cb ≠ CB.onDone v) ∧
    List.IsInfix bodyText
      (("Error ").data ++ (toString status).data ++ (": ").data ++ bodyText) ∧
    List.IsInfix ((toString status).data)
      (("Error ").data ++ (toString status).data ++ (": ").data ++ bodyText) := by
  refine ⟨rfl, ?_, ?_, ?_⟩
  · intro cb hcb v
    have h1 : streamRecommendationSSE (.response false status bodyText body) sid
        = [.onError (("Error ").data ++ (toString status).data ++ (": ").data ++ bodyText)] :=
      rfl
    rw [h1, List.mem_singleton] at hcb
    subst hcb
    simp
  · exact ⟨("Error ").data ++ (toString status).data ++ (": ").data, [], by simp⟩
  · exact ⟨("Error ").data, (": ").data ++ bodyText, by simp⟩

theorem claim8_witness :
    streamRecommendationSSE
        (.response false 500 (("oops").data) (some ([("event: done\n").data], none))) none
      = [.onError (("Error 500: oops").data)] := by
  have h := (claim8_http_error 500 (("oops").data)
    (some ([("event: done\n").data], none)) none).1
  rw [h]
  decide

theorem no_error_handleStatus (raw : List Char) :
    ∀ cb ∈ handleStatus raw, isErrorCB cb = false := by
  intro cb hcb
  rw [handleStatus] at hcb
  rcases hp : jsonParse (jsTrim raw) with _ | j
  · simp only [hp] at hcb
    exact absurd hcb (List.not_mem_nil cb)
  · simp only [hp] at hcb
    rcases hf : jsGetField j (("phase").data) with e | v
    · simp only [hf] at hcb
      exact absurd hcb (List.not_mem_nil cb)
    · simp only [hf, List.mem_singleton] at hcb
      subst hcb
      rfl

theorem no_error_dispatch (ctx : Option (List Char)) (name raw : List Char) :
    ∀ cbs, dispatch ctx name raw = .ok cbs → ∀ cb ∈ cbs, isErrorCB cb = false := by
  intro cbs hd cb hcb
  rw [dispatch] at hd
  split_ifs at hd
  · cases hd
    exact no_error_handleStatus raw cb hcb
  · cases hd
    rw [handleRecommendations] at hcb
    rcases hp : jsonParse (jsTrim raw) with _ | j
    · simp only [hp] at hcb
      exact absurd hcb (List.not_mem_nil cb)
    · simp only [hp, List.mem_singleton] at hcb
      subst hcb
      rfl
  · cases hd
    rw [handleToken, List.mem_singleton] at hcb
    subst hcb
    rfl
  · cases hd
    rw [handleNarrativeReplace, List.mem_singleton] at hcb
    subst hcb
    rfl
  · cases hd
    rw [handleDone] at hcb
    rcases hp : jsonParse (jsTrim raw) with _ | j
    · simp only [hp, List.mem_singleton] at hcb
      subst hcb
      rfl
    · simp only [hp] at hcb
      rcases hf : jsGetField j (("session_id").data) with e | v <;>
        simp only [hf, List.mem_singleton] at hcb <;> subst hcb <;> rfl
  · cases hd
    exact absurd hcb (List.not_mem_nil cb)

theorem no_error_processLine (ctx : Option (List Char)) (cur line : List Char) :
    ∀ cb ∈ (processLine ctx cur line).2.1, isErrorCB cb = false := by
  intro cb hcb
  rw [processLine] at hcb
  split_ifs at hcb
  · exact absurd hcb (List.not_mem_nil cb)
  · rcases hd : dispatch ctx cur (stripOneSpace (line.drop 5)) with e | cbs
    · simp [hd] at hcb
    · simp only [hd] at hcb
      exact no_error_dispatch ctx cur _ cbs hd cb (by simpa using hcb)
  · exact absurd hcb (List.not_mem_nil cb)

theorem no_error_processLines (ctx : Option (List Char)) (lines : List (List Char)) :
    ∀ cur : List Char, ∀ cb ∈ (processLines ctx cur lines).2.1, isErrorCB cb = false := by
  induction lines with
  | nil =>
    intro cur cb hcb
    exact absurd hcb (List.not_mem_nil cb)
  | cons l ls ih =>
    intro cur cb hcb
    simp only [processLines] at hcb
    rcases hp : (processLine ctx cur l).2.2 with _ | e
    · simp only [hp] at hcb
      rcases List.mem_append.mp (by simpa using hcb) with h1 | h2
      · exact no_error_processLine ctx cur l cb h1
      · exact ih _ cb h2
    · simp only [hp] at hcb
      exact no_error_processLine ctx cur l cb (by simpa using hcb)

theorem no_error_feed (ctx : Option (List Char)) (st : SSEState) (chunk : List Char) :
    ∀ cb ∈ (feed ctx st chunk).2.1, isErrorCB cb = false := by
  intro cb hcb
  exact no_error_processLines ctx _ _ cb hcb

theorem no_error_feedMany (ctx : Option (List Char)) (chunks : List (List Char)) :
    ∀ st : SSEState, ∀ cb ∈ (feedMany ctx st chunks).2.1, isErrorCB cb = false := by
  induction chunks with
  | nil =>
    intro st cb hcb
    exact absurd hcb (List.not_mem_nil cb)
  | cons c cs ih =>
    intro st cb hcb
    simp only [feedMany] at hcb
    rcases hp : (feed ctx st c).2.2 with _ | e
    · simp only [hp] at hcb
      rcases List.mem_append.mp (by simpa using hcb) with h1 | h2
      · exact no_error_feed ctx st c cb h1
      · exact ih _ cb h2
    · simp only [hp] at hcb
      exact no_error_feed ctx st c cb (by simpa using hcb)

theorem countP_error_runChunks (ctx : Option (List Char)) (chunks : List (List Char)) :
    (runChunks ctx chunks).countP isErrorCB = 0 :=
  List.countP_eq_zero.mpr (fun cb hcb => by
    rw [no_error_feedMany ctx chunks initState cb hcb]
    exact Bool.false_ne_true)

/-- Claim C9, counterexample: a successful response whose body delivers
a complete done event and whose read loop then fails with a transport
error makes the same stream invocation fire both the completion
callback and the failure callback, so the two are not mutually
exclusive. -/
theorem claim9_cex :
    (streamRecommendationSSE
        (.response true 200 []
          (some ([("event: done\ndata: \x7b\"session_id\":\"abc\"\x7d\n\n").data],
                 some (("boom").data)))) none).countP isDoneCB = 1 ∧
    (streamRecommendationSSE
        (.response true 200 []
          (some ([("event: done\ndata: \x7b\"session_id\":\"abc\"\x7d\n\n").data],
                 some (("boom").data)))) none).countP isErrorCB = 1 := by
  constructor
  · decide
  · decide

/-- On an ok response with a readable body, the stream function is the
parser trace followed by one failure callback when the parser raised
an exception; otherwise the trace followed by one failure callback
exactly when the transport read loop ended in an error. -/
theorem streamRecommendationSSE_body_eq (sid : Option (List Char)) (status : Nat)
    (bodyText : List Char) (chunks : List (List Char)) (endErr : Option (List Char)) :
    streamRecommendationSSE (.response true status bodyText (some (chunks, endErr))) sid
      = match runChunksErr sid chunks with
        | some e => runChunks sid chunks ++ [.onError (("Error de conexión: ").data ++ e)]
        | none =>
          match endErr with
          | none => runChunks sid chunks
          | some e =>
            runChunks sid chunks ++ [.onError (("Error de conexión: ").data ++ e)] := by
  rfl

/-- Claim C9, amended: within one stream invocation the failure
callback fires at most once; when the transport fails before any chunk
is consumed (fetch failure, non-success status, or no readable body)
the failure callback fires exactly once and the completion callback
never fires; when the body is consumed to a clean end of stream and
the parser raised no exception, the failure callback never fires; and
when the parser raised an exception (for example an event name that
reaches a throwing member inherited from Object.prototype) the failure
callback fires exactly once, after the already-delivered callbacks.
So exclusivity with the completion callback can be broken in two ways:
by a transport error after chunks were consumed, or by a parser
exception after a done event was dispatched. -/
theorem claim9_exclusivity (t : Transport) (sid : Option (List Char)) :
    (streamRecommendationSSE t sid).countP isErrorCB ≤ 1 ∧
    (∀ e, t = .fetchFailure e →
      (streamRecommendationSSE t sid).countP isDoneCB = 0 ∧
      (streamRecommendationSSE t sid).countP isErrorCB = 1) ∧
    (∀ status bodyText body, t = .response false status bodyText body →
      (streamRecommendationSSE t sid).countP isDoneCB = 0 ∧
      (streamRecommendationSSE t sid).countP isErrorCB = 1) ∧
    (∀ status bodyText, t = .response true status bodyText none →
      (streamRecommendationSSE t sid).countP isDoneCB = 0 ∧
      (streamRecommendationSSE t sid).countP isErrorCB = 1) ∧
    (∀ status bodyText chunks, t = .response true status bodyText (some (chunks, none)) →
      runChunksErr sid chunks = none →
      (streamRecommendationSSE t sid).countP isErrorCB = 0) ∧
    (∀ status bodyText chunks endErr e,
      t = .response true status bodyText (some (chunks, endErr)) →
      runChunksErr sid chunks = some e →
      (streamRecommendationSSE t sid).countP isErrorCB = 1) := by
  refine ⟨?_, ?_, ?_, ?_, ?_, ?_⟩
  · rcases t with e | ⟨ok, status, bodyText, body⟩
    · simp [streamRecommendationSSE, List.countP_cons, isErrorCB]
    · cases ok
      · simp [streamRecommendationSSE, List.countP_cons, isErrorCB]
      · rcases body with _ | ⟨chunks, endErr⟩
        · simp [streamRecommendationSSE, List.countP_cons, isErrorCB]
        · rcases hr : runChunksErr sid chunks with _ | e
          · rcases endErr with _ | e2
            · rw [streamRecommendationSSE_body_eq]
              simp only [hr]
              rw [countP_error_runChunks sid chunks]
              exact Nat.zero_le 1
            · rw [streamRecommendationSSE_body_eq]
              simp only [hr]
              rw [List.countP_append, countP_error_runChunks sid chunks]
              simp [List.countP_cons, isErrorCB]
          · rw [streamRecommendationSSE_body_eq]
            simp only [hr]
            rw [List.countP_append, countP_error_runChunks sid chunks]
            simp [List.countP_cons, isErrorCB]
  · rintro e rfl
    constructor
    · simp [streamRecommendationSSE, List.countP_cons, isDoneCB]
    · simp [streamRecommendationSSE, List.countP_cons, isErrorCB]
  · rintro status bodyText body rfl
    constructor
    · simp [streamRecommendationSSE, List.countP_cons, isDoneCB]
    · simp [streamRecommendationSSE, List.countP_cons, isErrorCB]
  · rintro status bodyText rfl
    constructor
    · simp [streamRecommendationSSE, List.countP_cons, isDoneCB]
    · simp [streamRecommendationSSE, List.countP_cons, isErrorCB]
  · rintro status bodyText chunks rfl hnone
    rw [streamRecommendationSSE_body_eq]
    simp only [hnone]
    exact countP_error_runChunks sid chunks
  · rintro status bodyText chunks endErr e rfl hsome
    rw [streamRecommendationSSE_body_eq]
    simp only [hsome]
    rw [List.countP_append, countP_error_runChunks sid chunks]
    simp [List.countP_cons, isErrorCB]

theorem claim9_witness :
    (streamRecommendationSSE (.fetchFailure (("refused").data)) none).countP isDoneCB = 0 ∧
    (streamRecommendationSSE (.fetchFailure (("refused").data)) none).countP isErrorCB = 1 :=
  (claim9_exclusivity (.fetchFailure (("refused").data)) none).2.1 (("refused").data) rfl

theorem dropWhile_ws_append (u x : List Char) (hu : ∀ c ∈ u, isJsWs c = true) :
    (u ++ x).dropWhile isJsWs = x.dropWhile isJsWs := by
  induction u with
  | nil => rfl
  | cons c u ih =>
    rw [List.cons_append, List.dropWhile_cons_of_pos (hu c (List.mem_cons_self c u))]
    exact ih (fun d hd => hu d (List.mem_cons_of_mem c hd))

theorem dropWhile_ws_all (v : List Char) (hv : ∀ c ∈ v, isJsWs c = true) :
    v.dropWhile isJsWs = [] := by
  induction v with
  | nil => rfl
  | cons c v ih =>
    rw [List.dropWhile_cons_of_pos (hv c (List.mem_cons_self c v))]
    exact ih (fun d hd => hv d (List.mem_cons_of_mem c hd))

theorem dropWhile_append_eq (raw v : List Char) :
    (raw ++ v).dropWhile isJsWs =
      if (raw.dropWhile isJsWs).isEmpty then v.dropWhile isJsWs
      else raw.dropWhile isJsWs ++ v := by
  induction raw with
  | nil => simp
  | cons c r ih =>
    by_cases hc : isJsWs c = true
    · rw [List.cons_append, List.dropWhile_cons_of_pos hc, ih,
        List.dropWhile_cons_of_pos hc]
    · rw [List.cons_append, List.dropWhile_cons_of_neg (by simp [hc]),
        List.dropWhile_cons_of_neg (by simp [hc])]
      simp

/-- The JS trim ignores any all-whitespace wrapping of its argument. -/
theorem jsTrim_ws_wrap (u v raw : List Char)
    (hu : ∀ c ∈ u, isJsWs c = true) (hv : ∀ c ∈ v, isJsWs c = true) :
    jsTrim (u ++ raw ++ v) = jsTrim raw := by
  rw [jsTrim, jsTrim, List.append_assoc, dropWhile_ws_append u (raw ++ v) hu,
    dropWhile_append_eq]
  rcases h : raw.dropWhile isJsWs with _ | ⟨c, t⟩
  · rw [dropWhile_ws_all v hv]
    simp
  · rw [if_neg (by simp)]
    rw [List.reverse_append,
      dropWhile_ws_append v.reverse (c :: t).reverse
        (fun d hd => hv d (List.mem_reverse.mp hd))]

/-- Claim C10: the three structured-event handlers (status,
recommendations, done) are invariant under wrapping the payload in
extra leading and trailing whitespace — they trim before parsing — so
the spec example line with a payload carrying one extra leading space
still parses and fires its callback; the token handler passes the
payload verbatim (all whitespace significant) and the narrative
replace handler trims only the outer whitespace, keeping interior
whitespace. -/
theorem claim10_structured_trim :
    (∀ (u v raw : List Char), (∀ c ∈ u, isJsWs c = true) → (∀ c ∈ v, isJsWs c = true) →
      handleStatus (u ++ raw ++ v) = handleStatus raw ∧
      handleRecommendations (u ++ raw ++ v) = handleRecommendations raw ∧
      (∀ ctx, handleDone (u ++ raw ++ v) ctx = handleDone raw ctx)) ∧
    runChunks none [("event: status\ndata:  \x7b\"phase\":\"x\"\x7d\n").data]
      = [.onStatus (some (.str (("x").data)))] ∧
    (∀ raw, handleToken raw = [.onToken raw]) ∧
    (∀ raw, handleNarrativeReplace raw = [.onNarrativeReplace (jsTrim raw)]) ∧
    handleNarrativeReplace ((" a  b ").data) = [.onNarrativeReplace (("a  b").data)] := by
  refine ⟨?_, by decide, fun raw => rfl, fun raw => rfl, by decide⟩
  intro u v raw hu hv
  refine ⟨?_, ?_, fun ctx => ?_⟩
  · rw [handleStatus, handleStatus, jsTrim_ws_wrap u v raw hu hv]
  · rw [handleRecommendations, handleRecommendations, jsTrim_ws_wrap u v raw hu hv]
  · rw [handleDone, handleDone, jsTrim_ws_wrap u v raw hu hv]

theorem claim10_witness :
    (∀ c ∈ ([' '] : List Char), isJsWs c = true) ∧
    handleStatus (([' '] : List Char) ++ ("\x7b\"phase\":\"x\"\x7d").data ++ [' '])
      = handleStatus (("\x7b\"phase\":\"x\"\x7d").data) :=
  ⟨by decide, ((claim10_structured_trim.1 [' '] [' ']
      (("\x7b\"phase\":\"x\"\x7d").data) (by decide) (by decide)).1)⟩

end CineMatch
